import Mathlib

/-!
Shallow embedding of the historical-LMP pipeline of `isodata/caiso.py`
(class `CAISO`, chiefly `get_historical_lmp`).

Modelling conventions:
* Timestamps are instants, counted in minutes since 2022-01-01 00:00 UTC
  (`Int`).  A pandas timestamp's identity is its instant, so
  `tz_convert` is the identity on this representation.
* The upstream CSV inside the ZIP payload is modelled as a list of
  `RawRow` (the four projected columns of `pd.read_csv(..., usecols=...)`);
  a `Response` whose payload is not a valid single-member ZIP with those
  columns carries `body = none`.
* Effects (`requests.get`, `print`, `time.sleep`) are recorded in an
  event trace; the HTTP collaborator is a function from the call index to
  the `Response` it yields.
* Machine floats of the price column are modelled as `Int` values; none
  of the verified properties depend on float arithmetic.
-/

/-- Modelled from the spec (§3): the `Markets` enumeration of
`isodata.base` (not under `src/`).  The spec names the three variants used
by the price query; `other` stands for any further market value, which the
spec calls a usage error for this query. -/
inductive Markets where
  | DAY_AHEAD_HOURLY
  | REAL_TIME_15_MIN
  | REAL_TIME_HOURLY
  | other (name : String)
deriving DecidableEq

/-- One parsed CSV record: the four columns kept by `usecols`
(`INTERVALSTARTTIME_GMT`, `NODE`, `LMP_TYPE` and the market-specific
price column). -/
structure RawRow where
  time : Nat
  node : String
  lmpType : String
  value : Int
deriving DecidableEq

abbrev RawTable := List RawRow

/-- The query URL of line 221, with the fixed query-string keys as fields.
`startdatetime`/`enddatetime` hold the formatted instants (their
`strftime` rendering is abstracted to the instant itself). -/
structure QueryUrl where
  resultformat : Nat
  queryname : String
  version : Nat
  startdatetime : Int
  enddatetime : Int
  market_run_id : String
  node : String
deriving DecidableEq

/-- Observable effects of one `get_historical_lmp` call. -/
inductive Event where
  | httpGet (url : QueryUrl)
  | log (msg : String)
  | sleep (secs : Nat)
deriving DecidableEq

/-- An HTTP response: status code plus the parse of its payload as a
single-member ZIP holding the expected CSV (`none` when that parse would
raise). -/
structure Response where
  status : Nat
  body : Option RawTable
deriving DecidableEq

/-- Errors the pipeline can raise. -/
inductive Err where
  | unsupportedMarket
  | malformedArchive
  | keyError
deriving DecidableEq

/-- A cell of the normalized dataframe. -/
inductive Cell where
  | time (t : Nat)
  | str (s : String)
  | num (v : Option Int)
  | market (m : Markets)
deriving DecidableEq

/-- A pandas dataframe with named columns. -/
structure DataFrame where
  cols : List String
  rows : List (List Cell)
deriving DecidableEq

/-- Modelled from the spec (§4.2 step 1): `isodata.utils._handle_date`
(not under `src/`) resolves the start date to the local-midnight instant
of that calendar day in `US/Pacific`.  Day `d` counts calendar days since
2022-01-01; the model covers the window around the 2022-03-13 02:00
spring-forward transition (PST = UTC-8 before, PDT = UTC-7 after). -/
def transitionUTC : Int := 102840

def utcOfPacificMidnight (d : Int) : Int :=
  let pst := d * 1440 + 480
  if pst < transitionUTC then pst else d * 1440 + 420

/-- Line 197-198: `start = start.tz_convert("UTC")` then
`end = start + pd.DateOffset(1)`.  A `DateOffset(1)` adds one calendar day
in the timestamp's own zone, and the zone here is UTC, so the end instant
is the start instant plus exactly 1440 minutes. -/
def queryEndUTC (d : Int) : Int := utcOfPacificMidnight d + 1440

/-- Modelled from the spec (§4.2 step 1 and §9): the end instant the spec
prescribes, namely start plus one calendar day in the operator's local
zone, i.e. the next local midnight. -/
def localCalendarDayEnd (d : Int) : Int := utcOfPacificMidnight (d + 1)

/-- Code-point lexicographic comparison of character lists: the order in
which Python compares strings and hence in which pandas sorts string
labels (a strict prefix sorts first). -/
def charListLt : List Char → List Char → Bool
  | [], [] => false
  | [], _ :: _ => true
  | _ :: _, [] => false
  | a :: as, b :: bs =>
    if a.toNat < b.toNat then true
    else if b.toNat < a.toNat then false
    else charListLt as bs

/-- Boolean lexicographic comparison used by pandas to sort string column
labels. -/
def strLt (a b : String) : Bool := charListLt a.data b.data

/-- Boolean lexicographic comparison of the `(INTERVALSTARTTIME_GMT, NODE)`
grouping keys; ISO-format GMT strings sort chronologically, so the time
level is the instant order. -/
def keyLt (a b : Nat × String) : Bool :=
  decide (a.1 < b.1) || (decide (a.1 = b.1) && strLt a.2 b.2)

/-- Ordered insert without duplicates: the sorted-unique index/column
construction of `pivot_table`. -/
def insOrd {α : Type} [DecidableEq α] (lt : α → α → Bool) (k : α) :
    List α → List α
  | [] => [k]
  | x :: xs =>
    if k = x then x :: xs
    else if lt k x then k :: x :: xs
    else x :: insOrd lt k xs

def rowKey (r : RawRow) : Nat × String := (r.time, r.node)

/-- The sorted distinct `(time, node)` index of the pivot. -/
def pivotKeys (raw : RawTable) : List (Nat × String) :=
  raw.foldl (fun acc r => insOrd keyLt (rowKey r) acc) []

/-- The sorted distinct `LMP_TYPE` column labels of the pivot. -/
def pivotCols (raw : RawTable) : List String :=
  raw.foldl (fun acc r => insOrd strLt r.lmpType acc) []

def matchesKey (t : Nat) (n ty : String) (r : RawRow) : Bool :=
  decide (r.time = t) && decide (r.node = n) && decide (r.lmpType = ty)

/-- One step of the `aggfunc="first"` aggregation: keep the already-seen
value, otherwise take this row's value when it matches the cell key. -/
def aggStep (t : Nat) (n ty : String) (acc : Option Int) (r : RawRow) :
    Option Int :=
  if matchesKey t n ty r then
    match acc with
    | some v => some v
    | none => some r.value
  else acc

/-- The `aggfunc="first"` aggregate of a cell over the raw rows in input
order. -/
def firstAgg (raw : RawTable) (t : Nat) (n ty : String) : Option Int :=
  raw.foldl (aggStep t n ty) none

/-- The wide table produced by `pivot_table`: one row per sorted distinct
`(time, node)` key, one cell per sorted distinct `LMP_TYPE`, `none` for an
absent combination. -/
structure WideTable where
  wcols : List String
  wrows : List (Nat × String × List (Option Int))
deriving DecidableEq

/-- Lines 247-252: `df.pivot_table(index=[time, node], columns=LMP_TYPE,
values=PRICE_COL, aggfunc="first")`. -/
def pivot_table (raw : RawTable) : WideTable :=
  { wcols := pivotCols raw
    wrows := (pivotKeys raw).map
      (fun k => (k.1, k.2, (pivotCols raw).map (firstAgg raw k.1 k.2))) }

/-- Cell lookup in the wide table by `(time, node)` row key and column
label. -/
def cellOf (w : WideTable) (t : Nat) (n ty : String) : Option Int :=
  match w.wrows.find? (fun kr => decide (kr.1 = t) && decide (kr.2.1 = n)) with
  | none => none
  | some kr =>
    if w.wcols.contains ty then kr.2.2.getD (w.wcols.indexOf ty) none
    else none

/-- The rename mapping of lines 254-263. -/
def renameCol (c : String) : String :=
  if c = "INTERVALSTARTTIME_GMT" then "Time"
  else if c = "NODE" then "Node"
  else if c = "LMP" then "LMP"
  else if c = "MCE" then "Energy"
  else if c = "MCC" then "Congestion"
  else if c = "MCL" then "Loss"
  else c

/-- `df.reset_index().rename(columns=...)`: the grouping keys become the
first two ordinary columns and every label goes through the rename map. -/
def resetRename (w : WideTable) : DataFrame :=
  { cols := (["INTERVALSTARTTIME_GMT", "NODE"] ++ w.wcols).map renameCol
    rows := w.wrows.map
      (fun kr => Cell.time kr.1 :: Cell.str kr.2.1 :: kr.2.2.map Cell.num) }

/-- Line 269, `df["Market"] = market`: overwrite an existing `Market`
column, otherwise append one at the end, with the same value in every
row.  (The `Time` reassignment of lines 265-267 is `tz_convert`, the
identity on instants, and is therefore not a separate step here.) -/
def setMarket (df : DataFrame) (m : Markets) : DataFrame :=
  if df.cols.contains "Market" then
    { cols := df.cols
      rows := df.rows.map (fun r => r.set (df.cols.indexOf "Market") (Cell.market m)) }
  else
    { cols := df.cols ++ ["Market"]
      rows := df.rows.map (fun r => r ++ [Cell.market m]) }

def canonicalCols : List String :=
  ["Time", "Market", "Node", "LMP", "Energy", "Congestion", "Loss"]

/-- Line 271, `df[[...]]`: column projection in the given order; pandas
raises a `KeyError` when any requested label is absent. -/
def selectCols (df : DataFrame) (names : List String) : Except Err DataFrame :=
  if names.all (fun nm => df.cols.contains nm) then
    Except.ok
      { cols := names
        rows := df.rows.map
          (fun row => names.map
            (fun nm => row.getD (df.cols.indexOf nm) (Cell.num none))) }
  else Except.error Err.keyError

/-- Modelled from the spec (§4.5): `utils.filter_lmp_nodes` (not under
`src/`) keeps only the rows whose `Node` value is among the requested
node identifiers. -/
def filter_lmp_nodes (df : DataFrame) (nodes : List String) : DataFrame :=
  { cols := df.cols
    rows := df.rows.filter (fun row =>
      match row.getD (df.cols.indexOf "Node") (Cell.num none) with
      | Cell.str n => nodes.contains n
      | _ => false) }

def trading_hubs_nodes : List String :=
  ["TH_NP15_GEN-APND", "TH_SP15_GEN-APND", "TH_ZP26_GEN-APND"]

/-- The market dispatch of lines 203-219: query name, market-run id,
version and price-column name per supported market; `none` reaches the
`raise RuntimeError("LMP Market is not supported")` branch. -/
def marketSettings : Markets → Option (String × String × Nat × String)
  | Markets.DAY_AHEAD_HOURLY => some ("PRC_LMP", "DAM", 12, "MW")
  | Markets.REAL_TIME_15_MIN => some ("PRC_RTPD_LMP", "RTPD", 3, "PRC")
  | Markets.REAL_TIME_HOURLY => some ("PRC_HASP_LMP", "HASP", 3, "MW")
  | Markets.other _ => none

/-- The retry loop of lines 223-233: `retry_num = 0`, `while retry_num < 3`;
a successful status breaks out, each failure increments the counter, logs
twice and sleeps 5 seconds (also after the final failed attempt, since the
loop body runs to its end before the condition is re-checked).  `fuel` is
an upper bound on the remaining iterations; the loop is entered with
`n = 0`, `fuel = 3`, and the `fuel = 0` branch is unreachable from there. -/
def retryLoop (url : QueryUrl) (http : Nat → Response) :
    Nat → Nat → List Event × Response
  | n, 0 => ([], http n)
  | n, fuel + 1 =>
    let r := http n
    if r.status = 200 then ([Event.httpGet url], r)
    else
      let evs := [Event.httpGet url,
        Event.log ("Failed to get data from CAISO. Error: " ++ toString r.status),
        Event.log ("Retrying " ++ toString (n + 1) ++ "..."),
        Event.sleep 5]
      if n + 1 < 3 then
        let rest := retryLoop url http (n + 1) fuel
        (evs ++ rest.1, rest.2)
      else (evs, r)

/-- The normalization of lines 254-269: reset/rename the pivoted table,
then tag every row with the requested market. -/
def normalizeDF (raw : RawTable) (m : Markets) : DataFrame :=
  setMarket (resetRename (pivot_table raw)) m

/-- Lines 254-271: normalization followed by the canonical column
projection. -/
def finalDF (raw : RawTable) (m : Markets) : Except Err DataFrame :=
  selectCols (normalizeDF raw m) canonicalCols

/-- `CAISO.get_historical_lmp` (lines 173-277): default-node substitution,
window computation, market dispatch, URL construction, bounded retry,
unzip/parse, pivot, normalization, canonical projection, the (unused)
node filter, and the politeness sleep.  The first output component is the
event trace, the second the returned dataframe or the raised error. -/
def get_historical_lmp (date : Int) (market : Markets)
    (nodes : Option (List String)) (sleepSecs : Nat)
    (http : Nat → Response) : List Event × Except Err DataFrame :=
  let nodesL := match nodes with
    | none => trading_hubs_nodes
    | some ns => ns
  let start := utcOfPacificMidnight date
  let nodesStr := String.intercalate "," nodesL
  let endT := queryEndUTC date
  match marketSettings market with
  | none => ([], Except.error Err.unsupportedMarket)
  | some (queryName, marketRunId, version, _priceCol) =>
    let url : QueryUrl :=
      { resultformat := 6, queryname := queryName, version := version,
        startdatetime := start, enddatetime := endT,
        market_run_id := marketRunId, node := nodesStr }
    let res := retryLoop url http 0 3
    let evs := res.1
    let r := res.2
    match r.body with
    | none => (evs, Except.error Err.malformedArchive)
    | some raw =>
      match finalDF raw market with
      | Except.error e => (evs, Except.error e)
      | Except.ok df4 =>
        let _data := filter_lmp_nodes df4 nodesL
        (evs ++ [Event.sleep sleepSecs], Except.ok df4)

/-- Rows of a successful result; an error yields no rows. -/
def okRows (res : Except Err DataFrame) : List (List Cell) :=
  match res with
  | Except.ok t => t.rows
  | Except.error _ => []

def cellTime (c : Cell) : Nat :=
  match c with
  | Cell.time t => t
  | _ => 0

def cellNode (c : Cell) : String :=
  match c with
  | Cell.str s => s
  | _ => ""

/-- The `(Time, Node)` pair carried by a normalized output row. -/
def rowTimeNode (row : List Cell) : Nat × String :=
  (cellTime (row.getD 0 (Cell.num none)), cellNode (row.getD 2 (Cell.num none)))

/-- All four canonical component types occur somewhere in the raw table. -/
def fourPresent (raw : RawTable) : Prop :=
  (∃ r ∈ raw, r.lmpType = "LMP") ∧ (∃ r ∈ raw, r.lmpType = "MCE") ∧
    (∃ r ∈ raw, r.lmpType = "MCC") ∧ (∃ r ∈ raw, r.lmpType = "MCL")

def reservedNames : List String :=
  ["Time", "Node", "Market", "Energy", "Congestion", "Loss",
    "INTERVALSTARTTIME_GMT", "NODE"]

/-- No raw component type collides with a fixed output label; pandas would
otherwise produce duplicate column labels, whose projection semantics this
embedding does not model. -/
def noCollide (raw : RawTable) : Prop :=
  ∀ r ∈ raw, r.lmpType ∉ reservedNames

def isGet (e : Event) : Bool :=
  match e with
  | Event.httpGet _ => true
  | _ => false

def isSleep (e : Event) : Bool :=
  match e with
  | Event.sleep _ => true
  | _ => false

def countGets (evs : List Event) : Nat := (evs.filter isGet).length

def countSleeps (evs : List Event) : Nat := (evs.filter isSleep).length

/-- The strict-order proposition behind `keyLt`. -/
def keyLtP (a b : Nat × String) : Prop := keyLt a b = true

/-- No two raw rows share a `(time, node, component-type)` key. -/
def dupFree (raw : RawTable) : Prop :=
  raw.Pairwise
    (fun a b => ¬(a.time = b.time ∧ a.node = b.node ∧ a.lmpType = b.lmpType))

def rawGood : RawTable :=
  [⟨0, "AA", "LMP", 25⟩, ⟨0, "AA", "MCE", 20⟩,
    ⟨0, "AA", "MCC", 3⟩, ⟨0, "AA", "MCL", 2⟩]

def httpGood : Nat → Response := fun _ => ⟨200, some rawGood⟩

def rawNoMCL : RawTable :=
  [⟨0, "AA", "LMP", 25⟩, ⟨0, "AA", "MCE", 20⟩, ⟨0, "AA", "MCC", 3⟩]

def httpNoMCL : Nat → Response := fun _ => ⟨200, some rawNoMCL⟩

def rawExtra : RawTable := rawGood ++ [⟨0, "BB", "LMP", 9⟩]

def httpExtra : Nat → Response := fun _ => ⟨200, some rawExtra⟩

def httpFail : Nat → Response := fun _ => ⟨404, none⟩

def urlA : QueryUrl := ⟨6, "PRC_LMP", 12, 480, 1920, "DAM", "AA"⟩

theorem mem_insOrd {α : Type} [DecidableEq α] (lt : α → α → Bool) (k a : α)
    (l : List α) : a ∈ insOrd lt k l ↔ a = k ∨ a ∈ l := by
  induction l with
  | nil => simp [insOrd]
  | cons x xs ih =>
    simp only [insOrd]
    by_cases h1 : k = x
    · subst h1
      rw [if_pos rfl]
      simp only [List.mem_cons]
      tauto
    · rw [if_neg h1]
      by_cases h2 : lt k x = true
      · simp only [if_pos h2, List.mem_cons]
      · simp only [if_neg h2, List.mem_cons, ih]
        tauto

theorem mem_foldl_insOrd {α β : Type} [DecidableEq α] (lt : α → α → Bool)
    (f : β → α) (l : List β) :
    ∀ (acc : List α) (a : α),
      a ∈ l.foldl (fun acc r => insOrd lt (f r) acc) acc ↔
        a ∈ acc ∨ a ∈ l.map f := by
  induction l with
  | nil => simp
  | cons x xs ih =>
    intro acc a
    simp only [List.foldl_cons, ih, mem_insOrd, List.map_cons, List.mem_cons]
    tauto

theorem pairwise_insOrd {α : Type} [DecidableEq α] (lt : α → α → Bool)
    (htri : ∀ a b, a ≠ b → lt a b = false → lt b a = true)
    (htrans : ∀ a b c, lt a b = true → lt b c = true → lt a c = true)
    (k : α) (l : List α) (h : l.Pairwise (fun a b => lt a b = true)) :
    (insOrd lt k l).Pairwise (fun a b => lt a b = true) := by
  induction l with
  | nil => simp [insOrd]
  | cons x xs ih =>
    simp only [insOrd]
    by_cases h1 : k = x
    · rw [if_pos h1]; exact h
    · rw [if_neg h1]
      rw [List.pairwise_cons] at h
      obtain ⟨hx, hxs⟩ := h
      by_cases h2 : lt k x = true
      · rw [if_pos h2, List.pairwise_cons]
        refine ⟨?_, ?_⟩
        · intro b hb
          rcases List.mem_cons.mp hb with rfl | hb'
          · exact h2
          · exact htrans _ _ _ h2 (hx b hb')
        · rw [List.pairwise_cons]
          exact ⟨hx, hxs⟩
      · rw [if_neg h2, List.pairwise_cons]
        refine ⟨?_, ih hxs⟩
        intro b hb
        rcases (mem_insOrd lt k b xs).mp hb with rfl | hb'
        · exact htri _ _ h1 (Bool.eq_false_iff.mpr h2)
        · exact hx b hb'

theorem pairwise_foldl_insOrd {α β : Type} [DecidableEq α] (lt : α → α → Bool)
    (htri : ∀ a b, a ≠ b → lt a b = false → lt b a = true)
    (htrans : ∀ a b c, lt a b = true → lt b c = true → lt a c = true)
    (f : β → α) (l : List β) :
    ∀ acc : List α, acc.Pairwise (fun a b => lt a b = true) →
      (l.foldl (fun acc r => insOrd lt (f r) acc) acc).Pairwise
        (fun a b => lt a b = true) := by
  induction l with
  | nil => intro acc h; exact h
  | cons x xs ih =>
    intro acc h
    exact ih _ (pairwise_insOrd lt htri htrans (f x) acc h)

theorem charListLt_trans : ∀ as bs cs : List Char,
    charListLt as bs = true → charListLt bs cs = true →
      charListLt as cs = true
  | [], bs, [] => by
    intro _ h2
    cases bs with
    | nil => exact absurd h2 (by simp [charListLt])
    | cons b bs => exact absurd h2 (by simp [charListLt])
  | [], bs, c :: cs => by
    intro _ _
    rfl
  | a :: as, [], cs => by
    intro h1 _
    exact absurd h1 (by simp [charListLt])
  | a :: as, b :: bs, [] => by
    intro _ h2
    exact absurd h2 (by simp [charListLt])
  | a :: as, b :: bs, c :: cs => by
    intro h1 h2
    unfold charListLt at h1 h2 ⊢
    by_cases hab : a.toNat < b.toNat
    · by_cases hbc : b.toNat < c.toNat
      · rw [if_pos (by omega)]
      · rw [if_neg hbc] at h2
        by_cases hcb : c.toNat < b.toNat
        · rw [if_pos hcb] at h2
          exact absurd h2 (by simp)
        · rw [if_pos (by omega)]
    · rw [if_neg hab] at h1
      by_cases hba : b.toNat < a.toNat
      · rw [if_pos hba] at h1
        exact absurd h1 (by simp)
      · rw [if_neg hba] at h1
        by_cases hbc : b.toNat < c.toNat
        · rw [if_pos (by omega)]
        · rw [if_neg hbc] at h2
          by_cases hcb : c.toNat < b.toNat
          · rw [if_pos hcb] at h2
            exact absurd h2 (by simp)
          · rw [if_neg hcb] at h2
            rw [if_neg (by omega), if_neg (by omega)]
            exact charListLt_trans as bs cs h1 h2

theorem charListLt_tri : ∀ as bs : List Char, as ≠ bs →
    charListLt as bs = false → charListLt bs as = true
  | [], [] => fun hne _ => absurd rfl hne
  | [], b :: bs => fun _ h => absurd h (by simp [charListLt])
  | a :: as, [] => fun _ _ => rfl
  | a :: as, b :: bs => by
    intro hne h
    unfold charListLt at h ⊢
    by_cases hab : a.toNat < b.toNat
    · rw [if_pos hab] at h
      exact absurd h (by simp)
    · rw [if_neg hab] at h
      by_cases hba : b.toNat < a.toNat
      · rw [if_pos hba]
      · rw [if_neg hba] at h
        have heqN : a.toNat = b.toNat := by omega
        have hchar : a = b := Char.ext (UInt32.toNat.inj heqN)
        subst hchar
        have htail : as ≠ bs := by
          intro hEq
          exact hne (by rw [hEq])
        rw [if_neg hab, if_neg hba]
        exact charListLt_tri as bs htail h

theorem strLt_tri (a b : String) (hne : a ≠ b) (h : strLt a b = false) :
    strLt b a = true := by
  unfold strLt at h ⊢
  refine charListLt_tri a.data b.data ?_ h
  intro hd
  apply hne
  cases a
  cases b
  cases hd
  rfl

theorem strLt_trans (a b c : String) (h1 : strLt a b = true)
    (h2 : strLt b c = true) : strLt a c = true :=
  charListLt_trans a.data b.data c.data h1 h2

theorem keyLt_tri (a b : Nat × String) (hne : a ≠ b) (h : keyLt a b = false) :
    keyLt b a = true := by
  unfold keyLt at h ⊢
  simp only [Bool.or_eq_false_iff, Bool.and_eq_false_iff,
    decide_eq_false_iff_not] at h
  obtain ⟨h1, h2⟩ := h
  rcases Nat.lt_trichotomy a.1 b.1 with hlt | heq | hgt
  · exact absurd hlt h1
  · have hs : strLt a.2 b.2 = false := by
      rcases h2 with h2 | h2
      · exact absurd heq h2
      · exact h2
    have hne2 : a.2 ≠ b.2 := by
      intro hEq
      exact hne (Prod.ext heq hEq)
    rw [Bool.or_eq_true_iff, Bool.and_eq_true_iff]
    right
    exact ⟨decide_eq_true heq.symm, strLt_tri a.2 b.2 hne2 hs⟩
  · rw [Bool.or_eq_true_iff]
    left
    exact decide_eq_true hgt

theorem keyLt_trans (a b c : Nat × String) (h1 : keyLt a b = true)
    (h2 : keyLt b c = true) : keyLt a c = true := by
  unfold keyLt at h1 h2 ⊢
  simp only [Bool.or_eq_true_iff, Bool.and_eq_true_iff,
    decide_eq_true_iff] at h1 h2 ⊢
  rcases h1 with h1 | ⟨h1, h1'⟩ <;> rcases h2 with h2 | ⟨h2, h2'⟩
  · left; omega
  · left; omega
  · left; omega
  · right
    exact ⟨h1.trans h2, strLt_trans _ _ _ h1' h2'⟩

theorem pivotKeys_pairwise (raw : RawTable) :
    (pivotKeys raw).Pairwise keyLtP :=
  pairwise_foldl_insOrd keyLt keyLt_tri keyLt_trans rowKey raw [] List.Pairwise.nil

theorem mem_pivotKeys (raw : RawTable) (k : Nat × String) :
    k ∈ pivotKeys raw ↔ ∃ r ∈ raw, rowKey r = k := by
  unfold pivotKeys
  rw [mem_foldl_insOrd]
  simp

theorem mem_pivotCols (raw : RawTable) (ty : String) :
    ty ∈ pivotCols raw ↔ ∃ r ∈ raw, r.lmpType = ty := by
  unfold pivotCols
  rw [mem_foldl_insOrd]
  simp

theorem foldl_aggStep_some (t : Nat) (n ty : String) (v : Int) (l : RawTable) :
    l.foldl (aggStep t n ty) (some v) = some v := by
  induction l with
  | nil => rfl
  | cons r rs ih =>
    have hstep : aggStep t n ty (some v) r = some v := by
      unfold aggStep
      split <;> rfl
    rw [List.foldl_cons, hstep, ih]

theorem firstAgg_cons (t : Nat) (n ty : String) (r : RawRow) (rs : RawTable) :
    firstAgg (r :: rs) t n ty =
      if matchesKey t n ty r then some r.value else firstAgg rs t n ty := by
  by_cases h : matchesKey t n ty r = true
  · rw [if_pos h]
    unfold firstAgg
    rw [List.foldl_cons]
    have hstep : aggStep t n ty none r = some r.value := by
      unfold aggStep
      rw [if_pos h]
    rw [hstep, foldl_aggStep_some]
  · rw [if_neg h]
    unfold firstAgg
    rw [List.foldl_cons]
    have hstep : aggStep t n ty none r = none := by
      unfold aggStep
      rw [if_neg h]
    rw [hstep]

theorem firstAgg_prefix_no_match (t : Nat) (n ty : String)
    (pre rest : RawTable)
    (hpre : ∀ r ∈ pre, matchesKey t n ty r = false) :
    firstAgg (pre ++ rest) t n ty = firstAgg rest t n ty := by
  induction pre with
  | nil => rfl
  | cons r rs ih =>
    rw [List.cons_append, firstAgg_cons,
      if_neg (by rw [hpre r (List.mem_cons_self r rs)]; simp)]
    exact ih (fun x hx => hpre x (List.mem_cons_of_mem r hx))

theorem indexOf_cons_beq {α : Type} [BEq α] (a x : α) (xs : List α) :
    (x :: xs).indexOf a = bif x == a then 0 else xs.indexOf a + 1 := by
  simp [List.indexOf, List.findIdx_cons]

theorem getD_map_indexOf {α β : Type} [BEq α] [LawfulBEq α] (f : α → β)
    (l : List α) (a : α) (d : β) (h : a ∈ l) :
    (l.map f).getD (l.indexOf a) d = f a := by
  induction l with
  | nil => cases h
  | cons x xs ih =>
    rw [List.map_cons, indexOf_cons_beq]
    by_cases hx : x = a
    · subst hx
      rw [beq_self_eq_true, cond_true]
      rfl
    · have hbeq : (x == a) = false := by
        simp [hx]
      rw [hbeq, cond_false]
      have hmem : a ∈ xs := by
        rcases List.mem_cons.mp h with h' | h'
        · exact absurd h'.symm hx
        · exact h'
      simpa [List.getD_cons_succ] using ih hmem

theorem contains_of_mem {α : Type} [BEq α] [LawfulBEq α] {a : α} {l : List α}
    (h : a ∈ l) : l.contains a = true := by
  simpa using h

theorem find?_mapped_keys (keys : List (Nat × String))
    (g : Nat × String → List (Option Int)) (t : Nat) (n : String)
    (hk : (t, n) ∈ keys) :
    (keys.map (fun k => (k.1, k.2, g k))).find?
        (fun kr => decide (kr.1 = t) && decide (kr.2.1 = n)) =
      some (t, n, g (t, n)) := by
  induction keys with
  | nil => cases hk
  | cons k ks ih =>
    by_cases h : k = (t, n)
    · subst h
      simp [List.find?]
    · have hfalse : (decide (k.1 = t) && decide (k.2 = n)) = false := by
        rcases k with ⟨k1, k2⟩
        simp only [Bool.and_eq_false_iff, decide_eq_false_iff_not]
        by_cases h1 : k1 = t
        · right
          intro h2
          exact h (by rw [h1, h2])
        · left; exact h1
      rw [List.map_cons, List.find?]
      simp only [hfalse]
      have hmem : (t, n) ∈ ks := by
        rcases List.mem_cons.mp hk with h' | h'
        · exact absurd h'.symm h
        · exact h'
      exact ih hmem

theorem cellOf_pivot_table (raw : RawTable) (t : Nat) (n ty : String)
    (hk : (t, n) ∈ pivotKeys raw) (hc : ty ∈ pivotCols raw) :
    cellOf (pivot_table raw) t n ty = firstAgg raw t n ty := by
  unfold cellOf pivot_table
  simp only
  rw [find?_mapped_keys (pivotKeys raw) _ t n hk]
  simp only
  rw [if_pos (contains_of_mem hc)]
  exact getD_map_indexOf (firstAgg raw t n) (pivotCols raw) ty none hc

theorem matchesKey_eq_false_iff (t : Nat) (n ty : String) (r : RawRow) :
    matchesKey t n ty r = false ↔ ¬(r.time = t ∧ r.node = n ∧ r.lmpType = ty) := by
  simp [matchesKey]

theorem matchesKey_self (t : Nat) (n ty : String) (r : RawRow)
    (h1 : r.time = t) (h2 : r.node = n) (h3 : r.lmpType = ty) :
    matchesKey t n ty r = true := by
  simp [matchesKey, h1, h2, h3]

/-- Claim C6: in a raw table where row `r1` is the first row carrying a
given `(time, node, component-type)` key and a later row `r2` carries the
same key with a different value, the pivot's cell for that key retains
`r1`'s value and discards `r2`'s. -/
theorem C6_duplicate_first_wins (pre mid post : RawTable) (r1 r2 : RawRow)
    (ht : r2.time = r1.time) (hn : r2.node = r1.node)
    (hty : r2.lmpType = r1.lmpType) (hv : r2.value ≠ r1.value)
    (hpre : ∀ r ∈ pre, matchesKey r1.time r1.node r1.lmpType r = false) :
    cellOf (pivot_table (pre ++ r1 :: mid ++ r2 :: post))
        r1.time r1.node r1.lmpType = some r1.value ∧
      cellOf (pivot_table (pre ++ r1 :: mid ++ r2 :: post))
        r1.time r1.node r1.lmpType ≠ some r2.value := by
  have hr1mem : r1 ∈ pre ++ r1 :: mid ++ r2 :: post := by simp
  have hk : (r1.time, r1.node) ∈ pivotKeys (pre ++ r1 :: mid ++ r2 :: post) :=
    (mem_pivotKeys _ _).mpr ⟨r1, hr1mem, rfl⟩
  have hc : r1.lmpType ∈ pivotCols (pre ++ r1 :: mid ++ r2 :: post) :=
    (mem_pivotCols _ _).mpr ⟨r1, hr1mem, rfl⟩
  have heq : cellOf (pivot_table (pre ++ r1 :: mid ++ r2 :: post))
      r1.time r1.node r1.lmpType = some r1.value := by
    rw [cellOf_pivot_table _ _ _ _ hk hc, List.append_assoc,
      List.cons_append, firstAgg_prefix_no_match _ _ _ pre _ hpre,
      firstAgg_cons, if_pos (matchesKey_self _ _ _ r1 rfl rfl rfl)]
  refine ⟨heq, ?_⟩
  rw [heq]
  intro hbad
  exact hv (Option.some.inj hbad).symm

theorem C6_duplicate_first_wins_witness :
    cellOf (pivot_table
        [(⟨0, "AA", "LMP", 25⟩ : RawRow), (⟨0, "AA", "LMP", 30⟩ : RawRow)])
        0 "AA" "LMP" = some 25 ∧
      cellOf (pivot_table
        [(⟨0, "AA", "LMP", 25⟩ : RawRow), (⟨0, "AA", "LMP", 30⟩ : RawRow)])
        0 "AA" "LMP" ≠ some 30 := by
  have h := C6_duplicate_first_wins [] [] []
    ⟨0, "AA", "LMP", 25⟩ ⟨0, "AA", "LMP", 30⟩ rfl rfl rfl (by decide)
    (fun r hr => absurd hr (List.not_mem_nil r))
  simpa using h

/-- Claim C7: on a raw table with no duplicate
`(time, node, component-type)` keys, the pivot loses no information: the
cell of every input row's key holds exactly that row's value. -/
theorem C7_pivot_no_loss (raw : RawTable) (hd : dupFree raw) (r : RawRow)
    (hr : r ∈ raw) :
    cellOf (pivot_table raw) r.time r.node r.lmpType = some r.value := by
  have hk : (r.time, r.node) ∈ pivotKeys raw :=
    (mem_pivotKeys _ _).mpr ⟨r, hr, rfl⟩
  have hc : r.lmpType ∈ pivotCols raw :=
    (mem_pivotCols _ _).mpr ⟨r, hr, rfl⟩
  rw [cellOf_pivot_table _ _ _ _ hk hc]
  obtain ⟨pre, post, rfl⟩ := List.append_of_mem hr
  have hpair := (List.pairwise_append.mp hd).2.2
  have hpre : ∀ x ∈ pre, matchesKey r.time r.node r.lmpType x = false := by
    intro x hx
    have hRel := hpair x hx r (List.mem_cons_self r post)
    rw [matchesKey_eq_false_iff]
    exact hRel
  rw [firstAgg_prefix_no_match _ _ _ pre _ hpre, firstAgg_cons,
    if_pos (matchesKey_self _ _ _ r rfl rfl rfl)]

theorem C7_pivot_no_loss_witness :
    cellOf (pivot_table rawGood) 0 "AA" "MCE" = some 20 := by
  have h := C7_pivot_no_loss rawGood (by unfold dupFree; decide) ⟨0, "AA", "MCE", 20⟩ (by decide)
  simpa using h

/-- Claim C3 counterexample: a sequence of three consecutive failing
responses drives the retry loop through 3 GET attempts but 3 five-second
pauses, not the 2 the claim states — the loop also sleeps after the final
failed attempt. -/
theorem C3_counterexample :
    countSleeps (retryLoop urlA httpFail 0 3).1 ≠ 2 ∧
      countSleeps (retryLoop urlA httpFail 0 3).1 = 3 ∧
      countGets (retryLoop urlA httpFail 0 3).1 = 3 ∧
      (retryLoop urlA httpFail 0 3).2 = httpFail 2 := by
  refine ⟨?_, rfl, rfl, rfl⟩
  decide

/-- Claim C3 (amended): for every sequence of 3 consecutive non-success
responses, the bulk-query retry loop performs exactly 3 GET attempts and
exactly 3 five-second pauses (one after each failed attempt, including
the last), and the third failing response is the one passed downstream
unchanged. -/
theorem C3_retry_bound (url : QueryUrl) (http : Nat → Response)
    (h0 : (http 0).status ≠ 200) (h1 : (http 1).status ≠ 200)
    (h2 : (http 2).status ≠ 200) :
    countGets (retryLoop url http 0 3).1 = 3 ∧
      countSleeps (retryLoop url http 0 3).1 = 3 ∧
      (retryLoop url http 0 3).2 = http 2 := by
  simp [retryLoop, h0, h1, h2, countGets, countSleeps, isGet, isSleep]

theorem C3_retry_bound_witness :
    countGets (retryLoop urlA httpFail 0 3).1 = 3 ∧
      countSleeps (retryLoop urlA httpFail 0 3).1 = 3 ∧
      (retryLoop urlA httpFail 0 3).2 = httpFail 2 :=
  C3_retry_bound urlA httpFail (by decide) (by decide) (by decide)

/-- Claim C4: evaluation of the window arithmetic at the 2022-03-13 US
spring-forward date (day 71 of the model).  The code's end instant is the
start instant plus a fixed 24 hours (1440 minutes) because the calendar
day is added after converting to UTC, whereas the spec's
one-local-calendar-day end lands 23 real hours after the start; the two
differ on this date. -/
theorem C4_dst_divergence :
    queryEndUTC 71 - utcOfPacificMidnight 71 = 1440 ∧
      localCalendarDayEnd 71 - utcOfPacificMidnight 71 = 1380 ∧
      queryEndUTC 71 ≠ localCalendarDayEnd 71 := by
  refine ⟨?_, ?_, ?_⟩ <;> decide

/-- Claim C8: every market value other than the three supported variants
makes `get_historical_lmp` fail with the market-unsupported error while
producing no events at all: no HTTP request, no retry, no sleep. -/
theorem C8_unsupported_market (market : Markets)
    (h1 : market ≠ Markets.DAY_AHEAD_HOURLY)
    (h2 : market ≠ Markets.REAL_TIME_15_MIN)
    (h3 : market ≠ Markets.REAL_TIME_HOURLY)
    (date : Int) (nodes : Option (List String)) (sleepSecs : Nat)
    (http : Nat → Response) :
    get_historical_lmp date market nodes sleepSecs http =
      ([], Except.error Err.unsupportedMarket) := by
  cases market with
  | DAY_AHEAD_HOURLY => exact absurd rfl h1
  | REAL_TIME_15_MIN => exact absurd rfl h2
  | REAL_TIME_HOURLY => exact absurd rfl h3
  | other name => rfl

theorem C8_unsupported_market_witness :
    get_historical_lmp 0 (Markets.other "PRC_RTM") (some ["AA"]) 0 httpGood =
      ([], Except.error Err.unsupportedMarket) :=
  C8_unsupported_market (Markets.other "PRC_RTM") (by decide) (by decide)
    (by decide) 0 (some ["AA"]) 0 httpGood

theorem retryLoop_first_ok (url : QueryUrl) (http : Nat → Response)
    (h : (http 0).status = 200) :
    retryLoop url http 0 3 = ([Event.httpGet url], http 0) := by
  simp [retryLoop, h]

theorem run_success (date : Int) (market : Markets) (q rid : String)
    (v : Nat) (pc : String) (nodes : Option (List String)) (s : Nat)
    (raw : RawTable) (http : Nat → Response)
    (hms : marketSettings market = some (q, rid, v, pc))
    (hh : http 0 = ⟨200, some raw⟩) :
    (get_historical_lmp date market nodes s http).2 = finalDF raw market := by
  unfold get_historical_lmp
  rw [hms]
  simp only
  rw [retryLoop_first_ok _ _ (by rw [hh])]
  simp only [hh]
  cases hfd : finalDF raw market with
  | error e => simp
  | ok t => simp

theorem resetRename_cols (w : WideTable) :
    (resetRename w).cols = "Time" :: "Node" :: w.wcols.map renameCol := rfl

theorem renameCol_ne_market (c : String) (hc : c ≠ "Market") :
    renameCol c ≠ "Market" := by
  unfold renameCol
  split_ifs <;> simp_all

theorem market_not_in_normal_cols (raw : RawTable) (hnc : noCollide raw) :
    "Market" ∉ (resetRename (pivot_table raw)).cols := by
  rw [resetRename_cols]
  intro hmem
  rcases List.mem_cons.mp hmem with h | h
  · exact absurd h.symm (by decide)
  rcases List.mem_cons.mp h with h' | h'
  · exact absurd h'.symm (by decide)
  rcases List.mem_map.mp h' with ⟨c, hcmem, hcren⟩
  have hcraw : ∃ r ∈ raw, r.lmpType = c := (mem_pivotCols raw c).mp hcmem
  obtain ⟨r, hrmem, hrty⟩ := hcraw
  have hres : c ∉ reservedNames := hrty ▸ hnc r hrmem
  have : c ≠ "Market" := by
    intro hEq
    subst hEq
    exact hres (by decide)
  exact renameCol_ne_market c this hcren

theorem not_contains_of_not_mem {α : Type} [BEq α] [LawfulBEq α] {a : α}
    {l : List α} (h : a ∉ l) : l.contains a = false := by
  rcases hcon : l.contains a with _ | _
  · rfl
  · exact absurd (by simpa using hcon) h

/-- Under `noCollide`, `setMarket` takes the append branch, so the
normalized frame is the reset/renamed frame with a trailing `Market`
column. -/
theorem normalizeDF_eq (raw : RawTable) (m : Markets) (hnc : noCollide raw) :
    normalizeDF raw m =
      { cols := ("Time" :: "Node" :: (pivotCols raw).map renameCol) ++ ["Market"]
        rows := (pivotKeys raw).map (fun k =>
          (Cell.time k.1 :: Cell.str k.2 ::
              ((pivotCols raw).map (firstAgg raw k.1 k.2)).map Cell.num) ++
            [Cell.market m]) } := by
  unfold normalizeDF setMarket
  rw [if_neg (by
    rw [not_contains_of_not_mem (market_not_in_normal_cols raw hnc)]
    simp)]
  unfold resetRename pivot_table
  rw [List.map_map, List.map_map]
  rfl

theorem canonical_mem (raw : RawTable) (m : Markets) (h4 : fourPresent raw)
    (hnc : noCollide raw) :
    ∀ nm ∈ canonicalCols, nm ∈ (normalizeDF raw m).cols := by
  obtain ⟨hLMP, hMCE, hMCC, hMCL⟩ := h4
  rw [normalizeDF_eq raw m hnc]
  intro nm hnm
  simp only [canonicalCols, List.mem_cons] at hnm
  simp only [List.mem_append, List.mem_cons]
  have hcomp : ∀ ty out : String, (∃ r ∈ raw, r.lmpType = ty) →
      renameCol ty = out → out ∈ (pivotCols raw).map renameCol := by
    intro ty out hty hout
    exact List.mem_map.mpr ⟨ty, (mem_pivotCols raw ty).mpr hty, hout⟩
  rcases hnm with rfl | rfl | rfl | rfl | rfl | rfl | rfl | h
  · left; left; rfl
  · right; simp
  · left; right; left; rfl
  · left; right; right; exact hcomp "LMP" _ hLMP rfl
  · left; right; right; exact hcomp "MCE" _ hMCE rfl
  · left; right; right; exact hcomp "MCC" _ hMCC rfl
  · left; right; right; exact hcomp "MCL" _ hMCL rfl
  · exact absurd h (List.not_mem_nil nm)

theorem selectCols_ok (df : DataFrame) (names : List String)
    (h : ∀ nm ∈ names, nm ∈ df.cols) :
    selectCols df names = Except.ok
      { cols := names
        rows := df.rows.map (fun row => names.map
          (fun nm => row.getD (df.cols.indexOf nm) (Cell.num none))) } := by
  unfold selectCols
  rw [if_pos]
  rw [List.all_eq_true]
  intro nm hnm
  exact contains_of_mem (h nm hnm)

/-- The cell the canonical projection picks for output column `nm` of the
normalized row keyed by `k` (proof-side abbreviation of the projection's
per-cell computation). -/
def selCell (raw : RawTable) (m : Markets) (k : Nat × String)
    (nm : String) : Cell :=
  ((Cell.time k.1 :: Cell.str k.2 ::
      ((pivotCols raw).map (firstAgg raw k.1 k.2)).map Cell.num) ++
    [Cell.market m]).getD
    ((("Time" :: "Node" :: (pivotCols raw).map renameCol) ++
      ["Market"]).indexOf nm) (Cell.num none)

theorem finalDF_eq (raw : RawTable) (m : Markets) (h4 : fourPresent raw)
    (hnc : noCollide raw) :
    finalDF raw m = Except.ok
      { cols := canonicalCols
        rows := (pivotKeys raw).map
          (fun k => canonicalCols.map (selCell raw m k)) } := by
  unfold finalDF
  rw [selectCols_ok _ _ (canonical_mem raw m h4 hnc), normalizeDF_eq raw m hnc]
  congr 1
  congr 1
  rw [List.map_map]
  rfl

theorem okRows_structure (date : Int) (market : Markets) (q rid : String)
    (v : Nat) (pc : String) (nodes : Option (List String)) (s : Nat)
    (raw : RawTable) (http : Nat → Response)
    (hms : marketSettings market = some (q, rid, v, pc))
    (hh : http 0 = ⟨200, some raw⟩)
    (h4 : fourPresent raw) (hnc : noCollide raw) :
    okRows (get_historical_lmp date market nodes s http).2 =
      (pivotKeys raw).map (fun k => canonicalCols.map (selCell raw market k)) := by
  rw [run_success date market q rid v pc nodes s raw http hms hh,
    finalDF_eq raw market h4 hnc]
  rfl

theorem getD_append_length {α : Type} (l : List α) (a d : α) :
    (l ++ [a]).getD l.length d = a := by
  induction l with
  | nil => rfl
  | cons x xs ih => simpa [List.getD_cons_succ] using ih

theorem indexOf_append_singleton {α : Type} [BEq α] [LawfulBEq α]
    (l : List α) (a : α) (h : a ∉ l) : (l ++ [a]).indexOf a = l.length := by
  induction l with
  | nil =>
    rw [List.nil_append, indexOf_cons_beq, beq_self_eq_true, cond_true]
    rfl
  | cons x xs ih =>
    have hne : (x == a) = false := by
      simp only [beq_eq_false_iff_ne]
      intro hEq
      exact h (hEq ▸ List.mem_cons_self x xs)
    rw [List.cons_append, indexOf_cons_beq, hne, cond_false, List.length_cons,
      ih (fun hmem => h (List.mem_cons_of_mem x hmem))]

theorem selCell_time (raw : RawTable) (m : Markets) (k : Nat × String) :
    selCell raw m k "Time" = Cell.time k.1 := rfl

theorem selCell_node (raw : RawTable) (m : Markets) (k : Nat × String) :
    selCell raw m k "Node" = Cell.str k.2 := rfl

theorem selCell_market (raw : RawTable) (m : Markets) (k : Nat × String)
    (hnc : noCollide raw) : selCell raw m k "Market" = Cell.market m := by
  unfold selCell
  have hnotin : "Market" ∉ "Time" :: "Node" :: (pivotCols raw).map renameCol :=
    fun hmem => market_not_in_normal_cols raw hnc (by
      rw [resetRename_cols]
      exact hmem)
  rw [indexOf_append_singleton _ _ hnotin]
  have hlen : ("Time" :: "Node" :: (pivotCols raw).map renameCol).length =
      (Cell.time k.1 :: Cell.str k.2 ::
        ((pivotCols raw).map (firstAgg raw k.1 k.2)).map Cell.num).length := by
    simp
  rw [hlen, getD_append_length]

/-- Claim C1 counterexample: with the MCL component type absent from the
upstream CSV, `get_historical_lmp` does not return a table with the
canonical columns at all — the canonical projection raises a KeyError. -/
theorem C1_counterexample :
    (get_historical_lmp 0 Markets.DAY_AHEAD_HOURLY (some ["AA"]) 0
      httpNoMCL).2 = Except.error Err.keyError := by
  rfl

/-- Claim C1 (amended): whenever all four canonical component types
(LMP, MCE, MCC, MCL) occur in the upstream CSV and no component type
collides with a fixed output label, the returned table's column list is
exactly Time, Market, Node, LMP, Energy, Congestion, Loss in that order;
any other component column is dropped.  When one of the four types is
absent, the call instead fails with a KeyError (see the counterexample). -/
theorem C1_canonical_columns (date : Int) (market : Markets) (q rid : String)
    (v : Nat) (pc : String) (nodes : Option (List String)) (s : Nat)
    (raw : RawTable) (http : Nat → Response)
    (hms : marketSettings market = some (q, rid, v, pc))
    (hh : http 0 = ⟨200, some raw⟩)
    (h4 : fourPresent raw) (hnc : noCollide raw) :
    ((get_historical_lmp date market nodes s http).2).map DataFrame.cols =
      Except.ok canonicalCols := by
  rw [run_success date market q rid v pc nodes s raw http hms hh,
    finalDF_eq raw market h4 hnc]
  rfl

theorem C1_canonical_columns_witness :
    ((get_historical_lmp 0 Markets.DAY_AHEAD_HOURLY (some ["AA"]) 0
        httpGood).2).map DataFrame.cols = Except.ok canonicalCols :=
  C1_canonical_columns 0 Markets.DAY_AHEAD_HOURLY "PRC_LMP" "DAM" 12 "MW"
    (some ["AA"]) 0 rawGood httpGood rfl rfl
    (by unfold fourPresent; decide) (by unfold noCollide; decide)

/-- Claim C2: the node-filter step's result is discarded, so the table
returned to the caller is the unfiltered normalized table: every raw row's
node — also one outside the requested node list — contributes a returned
row carrying that node. -/
theorem C2_filter_not_applied (date : Int) (market : Markets) (q rid : String)
    (v : Nat) (pc : String) (ns : List String) (s : Nat) (raw : RawTable)
    (http : Nat → Response)
    (hms : marketSettings market = some (q, rid, v, pc))
    (hh : http 0 = ⟨200, some raw⟩)
    (h4 : fourPresent raw) (hnc : noCollide raw)
    (r : RawRow) (hr : r ∈ raw) (hnode : r.node ∉ ns) :
    canonicalCols.map (selCell raw market (rowKey r)) ∈
        okRows (get_historical_lmp date market (some ns) s http).2 ∧
      (canonicalCols.map (selCell raw market (rowKey r))).getD 2
        (Cell.num none) = Cell.str r.node := by
  constructor
  · rw [okRows_structure date market q rid v pc (some ns) s raw http hms hh
      h4 hnc]
    exact List.mem_map.mpr
      ⟨rowKey r, (mem_pivotKeys raw (rowKey r)).mpr ⟨r, hr, rfl⟩, rfl⟩
  · have h1 : (canonicalCols.map (selCell raw market (rowKey r))).getD 2
        (Cell.num none) = selCell raw market (rowKey r) "Node" := rfl
    rw [h1, selCell_node]
    rfl

theorem C2_filter_not_applied_witness :
    canonicalCols.map (selCell rawExtra Markets.DAY_AHEAD_HOURLY (0, "BB")) ∈
        okRows (get_historical_lmp 0 Markets.DAY_AHEAD_HOURLY (some ["AA"]) 0
          httpExtra).2 ∧
      (canonicalCols.map
          (selCell rawExtra Markets.DAY_AHEAD_HOURLY (0, "BB"))).getD 2
        (Cell.num none) = Cell.str "BB" :=
  C2_filter_not_applied 0 Markets.DAY_AHEAD_HOURLY "PRC_LMP" "DAM" 12 "MW"
    ["AA"] 0 rawExtra httpExtra rfl rfl
    (by unfold fourPresent; decide) (by unfold noCollide; decide)
    ⟨0, "BB", "LMP", 9⟩ (by decide) (by decide)

/-- Claim C5: every row of a returned table carries the requested market's
identifier in its Market column (position 1 of the canonical order). -/
theorem C5_market_uniform (date : Int) (market : Markets) (q rid : String)
    (v : Nat) (pc : String) (nodes : Option (List String)) (s : Nat)
    (raw : RawTable) (http : Nat → Response)
    (hms : marketSettings market = some (q, rid, v, pc))
    (hh : http 0 = ⟨200, some raw⟩)
    (h4 : fourPresent raw) (hnc : noCollide raw) :
    ∀ row ∈ okRows (get_historical_lmp date market nodes s http).2,
      row.getD 1 (Cell.num none) = Cell.market market := by
  intro row hrow
  rw [okRows_structure date market q rid v pc nodes s raw http hms hh h4 hnc]
    at hrow
  rcases List.mem_map.mp hrow with ⟨k, hk, rfl⟩
  have h1 : (canonicalCols.map (selCell raw market k)).getD 1 (Cell.num none) =
      selCell raw market k "Market" := rfl
  rw [h1, selCell_market raw market k hnc]

theorem C5_market_uniform_witness :
    ([Cell.time 0, Cell.market Markets.DAY_AHEAD_HOURLY, Cell.str "AA",
        Cell.num (some 25), Cell.num (some 20), Cell.num (some 3),
        Cell.num (some 2)] : List Cell).getD 1 (Cell.num none) =
      Cell.market Markets.DAY_AHEAD_HOURLY :=
  C5_market_uniform 0 Markets.DAY_AHEAD_HOURLY "PRC_LMP" "DAM" 12 "MW"
    (some ["AA"]) 0 rawGood httpGood rfl rfl
    (by unfold fourPresent; decide) (by unfold noCollide; decide)
    [Cell.time 0, Cell.market Markets.DAY_AHEAD_HOURLY, Cell.str "AA",
      Cell.num (some 25), Cell.num (some 20), Cell.num (some 3),
      Cell.num (some 2)] (List.Mem.head _)

theorem retryLoop_head (url : QueryUrl) (http : Nat → Response)
    (n fuel : Nat) :
    ((retryLoop url http n (fuel + 1)).1).head? = some (Event.httpGet url) := by
  simp only [retryLoop]
  by_cases h : (http n).status = 200
  · rw [if_pos h]
    rfl
  · rw [if_neg h]
    by_cases h2 : n + 1 < 3
    · rw [if_pos h2]
      rfl
    · rw [if_neg h2]
      rfl

/-- Claim C9: only `nodes = None` triggers substitution of the three
default trading-hub nodes.  An empty node list is passed through: the call
still issues its HTTP GET, whose `node` query parameter is the empty
string, while `None` yields the comma-joined trading hubs. -/
theorem C9_empty_nodes_not_substituted (date : Int) (market : Markets)
    (q rid : String) (v : Nat) (pc : String) (s : Nat)
    (http : Nat → Response)
    (hms : marketSettings market = some (q, rid, v, pc)) :
    (get_historical_lmp date market (some []) s http).1.head? =
        some (Event.httpGet
          ⟨6, q, v, utcOfPacificMidnight date, queryEndUTC date, rid, ""⟩) ∧
      (get_historical_lmp date market none s http).1.head? =
        some (Event.httpGet
          ⟨6, q, v, utcOfPacificMidnight date, queryEndUTC date, rid,
            "TH_NP15_GEN-APND,TH_SP15_GEN-APND,TH_ZP26_GEN-APND"⟩) := by
  constructor
  · unfold get_historical_lmp
    rw [hms]
    simp only
    have hhead := retryLoop_head
      ⟨6, q, v, utcOfPacificMidnight date, queryEndUTC date, rid,
        String.intercalate "," ([] : List String)⟩ http 0 2
    cases hbody : (retryLoop
        ⟨6, q, v, utcOfPacificMidnight date, queryEndUTC date, rid,
          String.intercalate "," ([] : List String)⟩ http 0 3).2.body with
    | none =>
      simp only [hbody]
      exact hhead
    | some raw =>
      simp only [hbody]
      cases hfd : finalDF raw market with
      | error e =>
        simp only [hfd]
        exact hhead
      | ok df4 =>
        simp only [hfd]
        rcases hevs : (retryLoop
            ⟨6, q, v, utcOfPacificMidnight date, queryEndUTC date, rid,
              String.intercalate "," ([] : List String)⟩ http 0 3).1 with
          _ | ⟨e, evs⟩
        · rw [hevs] at hhead
          exact absurd hhead (by simp)
        · rw [hevs] at hhead
          simpa using hhead
  · unfold get_historical_lmp
    rw [hms]
    simp only
    have hhead := retryLoop_head
      ⟨6, q, v, utcOfPacificMidnight date, queryEndUTC date, rid,
        String.intercalate "," trading_hubs_nodes⟩ http 0 2
    cases hbody : (retryLoop
        ⟨6, q, v, utcOfPacificMidnight date, queryEndUTC date, rid,
          String.intercalate "," trading_hubs_nodes⟩ http 0 3).2.body with
    | none =>
      simp only [hbody]
      exact hhead
    | some raw =>
      simp only [hbody]
      cases hfd : finalDF raw market with
      | error e =>
        simp only [hfd]
        exact hhead
      | ok df4 =>
        simp only [hfd]
        rcases hevs : (retryLoop
            ⟨6, q, v, utcOfPacificMidnight date, queryEndUTC date, rid,
              String.intercalate "," trading_hubs_nodes⟩ http 0 3).1 with
          _ | ⟨e, evs⟩
        · rw [hevs] at hhead
          exact absurd hhead (by simp)
        · rw [hevs] at hhead
          simpa using hhead

theorem C9_empty_nodes_not_substituted_witness :
    (get_historical_lmp 0 Markets.DAY_AHEAD_HOURLY (some []) 0
          httpGood).1.head? =
        some (Event.httpGet
          ⟨6, "PRC_LMP", 12, utcOfPacificMidnight 0, queryEndUTC 0, "DAM",
            ""⟩) ∧
      (get_historical_lmp 0 Markets.DAY_AHEAD_HOURLY none 0
          httpGood).1.head? =
        some (Event.httpGet
          ⟨6, "PRC_LMP", 12, utcOfPacificMidnight 0, queryEndUTC 0, "DAM",
            "TH_NP15_GEN-APND,TH_SP15_GEN-APND,TH_ZP26_GEN-APND"⟩) :=
  C9_empty_nodes_not_substituted 0 Markets.DAY_AHEAD_HOURLY "PRC_LMP" "DAM"
    12 "MW" 0 httpGood rfl

/-- Claim C10: the rows of a returned table appear in strictly ascending
sorted order of the `(interval-start-time, node)` grouping key: the
output's key sequence equals the pivot's sorted deduplicated key index and
is Pairwise-increasing under the lexicographic key order, independent of
the raw input row order. -/
theorem C10_rows_sorted (date : Int) (market : Markets) (q rid : String)
    (v : Nat) (pc : String) (nodes : Option (List String)) (s : Nat)
    (raw : RawTable) (http : Nat → Response)
    (hms : marketSettings market = some (q, rid, v, pc))
    (hh : http 0 = ⟨200, some raw⟩)
    (h4 : fourPresent raw) (hnc : noCollide raw) :
    (okRows (get_historical_lmp date market nodes s http).2).map rowTimeNode =
        pivotKeys raw ∧
      ((okRows (get_historical_lmp date market nodes s http).2).map
        rowTimeNode).Pairwise keyLtP := by
  have hmap : (okRows (get_historical_lmp date market nodes s http).2).map
      rowTimeNode = pivotKeys raw := by
    rw [okRows_structure date market q rid v pc nodes s raw http hms hh h4 hnc,
      List.map_map]
    have hcongr : ∀ k ∈ pivotKeys raw,
        (rowTimeNode ∘ fun k => canonicalCols.map (selCell raw market k)) k =
          id k := fun k _ => rfl
    rw [List.map_congr_left hcongr, List.map_id]
  refine ⟨hmap, ?_⟩
  rw [hmap]
  exact pivotKeys_pairwise raw

theorem C10_rows_sorted_witness :
    (okRows (get_historical_lmp 0 Markets.DAY_AHEAD_HOURLY (some ["AA"]) 0
          httpExtra).2).map rowTimeNode = pivotKeys rawExtra ∧
      ((okRows (get_historical_lmp 0 Markets.DAY_AHEAD_HOURLY (some ["AA"]) 0
          httpExtra).2).map rowTimeNode).Pairwise keyLtP :=
  C10_rows_sorted 0 Markets.DAY_AHEAD_HOURLY "PRC_LMP" "DAM" 12 "MW"
    (some ["AA"]) 0 rawExtra httpExtra rfl rfl
    (by unfold fourPresent; decide) (by unfold noCollide; decide)
